import Mathlib

/-!
Shallow embedding of the AI Prompt Hub application (`app.py`): the vote
store with its star-toggle upsert, the rating aggregation, the prompt
submission handler, the moderation state machine, admin login, the Slack
OAuth callback, and the search / tag-filter / sort pipeline of the view
tab.  Machine integers do not occur (all arithmetic is on small naturals
and exact rationals), so `Nat` and `ℚ` are used directly.
-/

/-- A row of the `votes` table: one rating per `(prompt_id, user_id)` pair.
Mirrors the columns used at `app.py` lines 122, 169, 175, 185-189. -/
structure VoteRow where
  prompt_id : Nat
  user_id : Nat
  rating : Nat
deriving Repr, DecidableEq

/-- `conn.client.table("votes").select("rating").eq("prompt_id", pid)`:
the vote rows of one prompt. -/
def votesFor (votes : List VoteRow) (pid : Nat) : List VoteRow :=
  votes.filter (fun v => v.prompt_id == pid)

/-- `calculate_avg_rating` (`app.py` lines 121-125): sum of the ratings of
the prompt's vote rows divided by their count, `0` when there are none. -/
def calculate_avg_rating (votes : List VoteRow) (pid : Nat) : ℚ :=
  let rating_data := votesFor votes pid
  if rating_data.length > 0 then
    ((rating_data.map (fun r => (r.rating : ℚ))).sum) / (rating_data.length : ℚ)
  else 0

/-- The inline per-prompt average shown in the expander
(`app.py` lines 169-171): `sum(r['rating'] for r in rating_data.data) /
rating_data.count if rating_data.count > 0 else 0`. -/
def inline_avg_rating (votes : List VoteRow) (pid : Nat) : ℚ :=
  let rating_data := votesFor votes pid
  if rating_data.length > 0 then
    ((rating_data.map (fun r => (r.rating : ℚ))).sum) / (rating_data.length : ℚ)
  else 0

/-- The arithmetic mean of a list of rationals, `0` for the empty list
(spec-side definition, used to compare `calculate_avg_rating` against the
spec's words). -/
def arithmeticMean (l : List ℚ) : ℚ :=
  if l.length > 0 then l.sum / (l.length : ℚ) else 0

/-- `user_vote` (`app.py` lines 175-176): the caller's stored rating for a
prompt, `0` when no row exists
(`user_vote_data[0]['rating'] if user_vote_data else 0`). -/
def currentUserVote (votes : List VoteRow) (pid uid : Nat) : Nat :=
  match votes.filter (fun v => v.prompt_id == pid && v.user_id == uid) with
  | [] => 0
  | v :: _ => v.rating

/-- `conn.client.table("votes").upsert({...})` (`app.py` lines 185-189),
keyed on `(prompt_id, user_id)` per the table's uniqueness constraint:
overwrite the existing row for the pair, or insert a new one. -/
def upsertVote (votes : List VoteRow) (pid uid rating : Nat) : List VoteRow :=
  if votes.any (fun v => v.prompt_id == pid && v.user_id == uid) then
    votes.map (fun v =>
      if v.prompt_id == pid && v.user_id == uid then { v with rating := rating } else v)
  else
    votes ++ [⟨pid, uid, rating⟩]

/-- The star-button click handler (`app.py` lines 181-189):
`new_rating = i; if new_rating == user_vote: new_rating = 0`, then upsert. -/
def castVote (votes : List VoteRow) (pid uid starIndex : Nat) : List VoteRow :=
  let user_vote := currentUserVote votes pid uid
  let new_rating := if starIndex == user_vote then 0 else starIndex
  upsertVote votes pid uid new_rating

/-- A sequence of star clicks by one user on one prompt. -/
def castSeq (votes : List VoteRow) (pid uid : Nat) (stars : List Nat) : List VoteRow :=
  stars.foldl (fun vs s => castVote vs pid uid s) votes

/-- Number of vote rows stored for a `(prompt_id, user_id)` pair. -/
def voteRowCount (votes : List VoteRow) (pid uid : Nat) : Nat :=
  (votes.filter (fun v => v.prompt_id == pid && v.user_id == uid)).length

/-! ## Python string primitives

`str.lower`, `str.strip`, `str.split(',')` and lexicographic comparison,
implemented structurally over the character list of a `String` so that
every definition evaluates by kernel reduction. -/

/-- Lexicographic `≤` on character lists by Unicode code point
(Python's string ordering, used by `sorted`). -/
def charListLe : List Char → List Char → Bool
  | [], _ => true
  | _ :: _, [] => false
  | a :: as, b :: bs =>
    if a.toNat < b.toNat then true
    else if b.toNat < a.toNat then false
    else charListLe as bs

/-- Python `str.lower()`. -/
def pyLower (s : String) : String := ⟨s.data.map Char.toLower⟩

/-- Drop leading and trailing whitespace from a character list. -/
def trimCharList (l : List Char) : List Char :=
  ((l.dropWhile Char.isWhitespace).reverse.dropWhile Char.isWhitespace).reverse

/-- Python `str.strip()`. -/
def pyStrip (s : String) : String := ⟨trimCharList s.data⟩

/-- Split a character list at every comma; the empty list yields one empty
field, as Python `''.split(',') == ['']`. -/
def splitCommaAux : List Char → List (List Char)
  | [] => [[]]
  | c :: rest =>
    if c = ',' then [] :: splitCommaAux rest
    else
      match splitCommaAux rest with
      | [] => [[c]]
      | x :: xs => (c :: x) :: xs

/-- Python `str.split(',')`. -/
def pySplitComma (s : String) : List String := (splitCommaAux s.data).map (fun l => ⟨l⟩)

/-- Python `sorted` on strings (lexicographic by code point). -/
def pySortStrings (l : List String) : List String :=
  List.insertionSort (fun a b => charListLe a.data b.data = true) l

/-! ## Substring matching (pandas `str.contains(..., case=False)`) -/

/-- `true` when `needle` occurs as a contiguous run inside `haystack`
(both given as character lists). -/
def hasSubstrAux (needle : List Char) : List Char → Bool
  | [] => needle.isEmpty
  | c :: rest => needle.isPrefixOf (c :: rest) || hasSubstrAux needle rest

/-- `Series.str.contains(pat, case=False)` for a literal (regex-free)
pattern, as used on `title`, `prompt_text` and `tags` (`app.py`
lines 146-147, 152): case-insensitive substring containment. -/
def strContainsCI (haystack needle : String) : Bool :=
  hasSubstrAux (pyLower needle).data (pyLower haystack).data

/-- Case-sensitive substring occurrence: `needle` occurs verbatim in
`haystack`.  Spec-side notion ("t occurs as a substring of its tags
field"), for comparison with the code's case-insensitive test. -/
def occursAsSubstring (needle haystack : String) : Bool :=
  hasSubstrAux needle.data haystack.data

/-! ## Prompt submission (`app.py` lines 228-264) -/

/-- The submission-validation failure: `st.warning("Please fill out all
fields, including at least one tag.")` with no insert (`app.py` line 264). -/
inductive ValidationError
  | missingFields
deriving Repr, DecidableEq

/-- The row inserted into `prompts` on a valid submission
(`app.py` lines 253-261). -/
structure NewPrompt where
  title : String
  prompt_text : String
  category : String
  tags : String
  submitted_by_id : Nat
  username : String
  status : String
deriving Repr, DecidableEq

/-- `custom_tags = [tag.strip() for tag in custom_tags_input.split(',') if
tag.strip()]` (`app.py` line 247). -/
def parseCustomTags (custom_tags_input : String) : List String :=
  ((pySplitComma custom_tags_input).map pyStrip).filter (fun t => !t.data.isEmpty)

/-- `all_tags = sorted(list(set(selected_tags + custom_tags)))`
(`app.py` line 248): case-sensitive deduplication, then sort. -/
def submitTagSet (selected_tags : List String) (custom_tags_input : String) : List String :=
  pySortStrings (selected_tags ++ parseCustomTags custom_tags_input).dedup

/-- The submit handler (`app.py` lines 246-264): require truthy `title`,
`prompt_text`, `category` and a non-empty `all_tags`, then insert one
`prompts` row with `status = "pending"` and the session's user id and
username; otherwise warn and insert nothing. -/
def submit (title prompt_text category : String) (selected_tags : List String)
    (custom_tags_input : String) (user_id : Nat) (username : String) :
    Except ValidationError NewPrompt :=
  let all_tags := submitTagSet selected_tags custom_tags_input
  if !title.data.isEmpty && !prompt_text.data.isEmpty && !category.data.isEmpty
      && !all_tags.isEmpty then
    Except.ok
      { title := title
        prompt_text := prompt_text
        category := category
        tags := ", ".intercalate all_tags
        submitted_by_id := user_id
        username := username
        status := "pending" }
  else
    Except.error ValidationError.missingFields

/-! ## The `prompts` store and moderation workflow -/

/-- A row of the `prompts` table (columns used at `app.py` lines 253-261,
289-294, plus the database-generated `id`). -/
structure PromptRow where
  id : Nat
  title : String
  prompt_text : String
  category : String
  tags : String
  submitted_by_id : Nat
  username : String
  status : String
deriving Repr, DecidableEq

/-- Modelled from the spec: `get_pending_prompts_with_username` is a
server-side stored procedure not present in `app.py`; per §6 it returns
the prompt rows with `status = pending` (the submitter username is already
denormalized onto the row). -/
def listPending (store : List PromptRow) : List PromptRow :=
  store.filter (fun p => p.status == "pending")

/-- Modelled from the spec: `get_approved_prompts_with_username` is a
server-side stored procedure not present in `app.py`; per §6 it returns
the prompt rows with `status = approved`. -/
def listApproved (store : List PromptRow) : List PromptRow :=
  store.filter (fun p => p.status == "approved")

/-- `conn.client.table("prompts").update({"status": s}).eq("id", pid)`
(`app.py` lines 290, 294): set the status of every row whose `id`
matches; a nonexistent id touches zero rows. -/
def updateStatus (store : List PromptRow) (pid : Nat) (new_status : String) : List PromptRow :=
  store.map (fun p => if p.id == pid then { p with status := new_status } else p)

/-- A database-generated id not yet present in the store. -/
def freshId (store : List PromptRow) : Nat :=
  (store.map (fun p => p.id)).foldr max 0 + 1

/-- Append the inserted row of a successful submission to the `prompts`
table, under a fresh database-generated id (`app.py` lines 253-261). -/
def insertPrompt (store : List PromptRow) (np : NewPrompt) : List PromptRow :=
  store ++ [{ id := freshId store
              title := np.title
              prompt_text := np.prompt_text
              category := np.category
              tags := np.tags
              submitted_by_id := np.submitted_by_id
              username := np.username
              status := np.status }]

/-- The status of the first prompt row with id `pid`, `none` when no such
row exists (observation function on the store). -/
def statusOf : List PromptRow → Nat → Option String
  | [], _ => none
  | p :: ps, pid => if p.id == pid then some p.status else statusOf ps pid

/-- Every prompt's status is one of the three moderation states. -/
def StatusInv (store : List PromptRow) : Prop :=
  ∀ p ∈ store, p.status = "pending" ∨ p.status = "approved" ∨ p.status = "rejected"

/-- The database-generated prompt ids are pairwise distinct. -/
def IdsNodup (store : List PromptRow) : Prop :=
  (store.map (fun p => p.id)).Nodup

/-- One user-visible operation on the `prompts` store, as the app exposes
them: a valid submission inserts a pending row (`app.py` lines 246-261);
the approve / reject buttons exist only inside the admin tab
(`role == 'admin'`, line 271) and only for rows of the pending queue
(`pending_df`, lines 278-295), and perform `updateStatus`. -/
inductive Step : List PromptRow → List PromptRow → Prop
  | submission (store : List PromptRow) (title prompt_text category : String)
      (selected_tags : List String) (custom_tags_input : String)
      (user_id : Nat) (username : String) (np : NewPrompt)
      (hok : submit title prompt_text category selected_tags custom_tags_input
               user_id username = Except.ok np) :
      Step store (insertPrompt store np)
  | approve (store : List PromptRow) (role : String) (pid : Nat)
      (hrole : role = "admin")
      (hpending : pid ∈ (listPending store).map (fun p => p.id)) :
      Step store (updateStatus store pid "approved")
  | reject (store : List PromptRow) (role : String) (pid : Nat)
      (hrole : role = "admin")
      (hpending : pid ∈ (listPending store).map (fun p => p.id)) :
      Step store (updateStatus store pid "rejected")

/-! ## Identity resolution (`app.py` lines 46-102) -/

/-- A row of the `users` table (`app.py` line 92). -/
structure UserRow where
  id : Nat
  username : String
  password_hash : String
  role : String
deriving Repr, DecidableEq

/-- The session established on a successful admin login
(`app.py` lines 96-99). -/
structure Session where
  username : String
  user_id : Nat
  role : String
deriving Repr, DecidableEq

/-- The single generic failure of the admin login form:
`st.error("Invalid admin credentials or not an admin.")` (`app.py`
line 102). -/
inductive AuthError
  | invalidAdmin
deriving Repr, DecidableEq

/-- The admin login handler (`app.py` lines 90-102): select the `users`
rows matching the supplied username, the hash of the supplied password,
and `role = "admin"`; establish a session from the first match, or show
the one generic error.  `hash_password` (SHA-256 at line 12-14) is the
library digest, taken as a parameter. -/
def admin_login (hash_password : String → String) (users : List UserRow)
    (username password : String) : Except AuthError Session :=
  let password_hash := hash_password password
  match users.filter (fun u =>
      u.username == username && u.password_hash == password_hash && u.role == "admin") with
  | [] => Except.error AuthError.invalidAdmin
  | u :: _ => Except.ok { username := u.username, user_id := u.id, role := u.role }

/-- `authed_user` of the Slack token response (`app.py` lines 56-59):
`name` and `id` may each be absent. -/
structure SlackIdentity where
  name : Option String
  id : Option Nat
deriving Repr, DecidableEq

/-- The decoded Slack token-exchange response (`app.py` line 53-56). -/
structure TokenData where
  ok : Bool
  authed_user : SlackIdentity
deriving Repr, DecidableEq

/-- The session state set by the Slack OAuth callback; `user_id` is
`authed_user.get("id")`, hence possibly absent. -/
structure SlackSession where
  username : String
  user_id : Option Nat
  role : String
deriving Repr, DecidableEq

/-- The Slack OAuth callback (`app.py` lines 55-64): on `token_data["ok"]`
log in with `username = authed_user.get("name", "Slack User")`,
`user_id = authed_user.get("id")` and `role = "user"`; otherwise no
session. -/
def slack_callback (token_data : TokenData) : Option SlackSession :=
  if token_data.ok then
    some { username := token_data.authed_user.name.getD "Slack User"
           user_id := token_data.authed_user.id
           role := "user" }
  else
    none

/-! ## The view tab pipeline (`app.py` lines 112-155) -/

/-- `avg_rating` column (`app.py` line 127):
`prompts_df['id'].apply(calculate_avg_rating)`. -/
def avgKey (votes : List VoteRow) (p : PromptRow) : ℚ :=
  calculate_avg_rating votes p.id

/-- `prompts_df.sort_values(by='avg_rating', ascending=False)`
(`app.py` line 129). -/
def sortByAvgDesc (votes : List VoteRow) (rows : List PromptRow) : List PromptRow :=
  List.insertionSort (fun a b => avgKey votes a ≥ avgKey votes b) rows

/-- The keyword search predicate (`app.py` lines 145-148): case-insensitive
containment in `title` or `prompt_text`. -/
def matchesSearch (search_query : String) (p : PromptRow) : Bool :=
  strContainsCI p.title search_query || strContainsCI p.prompt_text search_query

/-- `if search_query:` guard and filter (`app.py` lines 144-148); an empty
query is falsy and filters nothing. -/
def applySearch (search_query : String) (rows : List PromptRow) : List PromptRow :=
  if !search_query.data.isEmpty then rows.filter (matchesSearch search_query) else rows

/-- The tag-filter loop (`app.py` lines 150-152): one successive
`str.contains(tag, case=False)` filter per selected tag. -/
def applyTagFilter (selected_tags : List String) (rows : List PromptRow) : List PromptRow :=
  selected_tags.foldl (fun df tag => df.filter (fun r => strContainsCI r.tags tag)) rows

/-- The full view-tab pipeline (`app.py` lines 114-155): sort the approved
prompts by average rating descending, then apply the search filter, then
the tag filter. -/
def viewList (votes : List VoteRow) (rows : List PromptRow) (search_query : String)
    (selected_tags : List String) : List PromptRow :=
  applyTagFilter selected_tags (applySearch search_query (sortByAvgDesc votes rows))


/-! ## The modelled fragment of Python regular expressions

`Series.str.contains(pat, case=False)` treats `pat` as a regular
expression compiled with `re.IGNORECASE` (pandas default `regex=True`),
so the tag filter of `app.py` line 152 performs a case-insensitive regex
search, not a literal substring test.  The fragment modelled here is
patterns built from literal characters and the wildcard `.`; a pattern
using any other metacharacter is outside the model (`none`, as is the
`re.error` such a pattern may raise). -/

/-- One atom of a pattern in the modelled fragment: a literal character
or the wildcard `.`. -/
inductive ReAtom
  | lit (c : Char)
  | dot
deriving Repr, DecidableEq

/-- The metacharacters of Python `re` other than `.`: a pattern
containing any of these is outside the modelled fragment. -/
def reMetaOther : List Char :=
  ['^', '$', '*', '+', '?', Char.ofNat 123, Char.ofNat 125, '[', ']',
    Char.ofNat 92, '|', '(', ')']

/-- All metacharacters of Python `re`: the wildcard `.` and the rest. -/
def reMetachars : List Char := '.' :: reMetaOther

/-- Compile a pattern of the modelled fragment: `.` becomes the wildcard,
every other character matches literally. -/
def parseRePattern (pat : String) : Option (List ReAtom) :=
  if pat.data.any (fun c => c ∈ reMetaOther) then none
  else some (pat.data.map (fun c => if c = '.' then ReAtom.dot else ReAtom.lit c))

/-- One atom against one character, under `re.IGNORECASE`; the wildcard
matches anything but a newline. -/
def reAtomMatches (a : ReAtom) (c : Char) : Bool :=
  match a with
  | ReAtom.lit l => l.toLower == c.toLower
  | ReAtom.dot => c != '\n'

/-- Match the whole atom list against a prefix of the text. -/
def reMatchHere : List ReAtom → List Char → Bool
  | [], _ => true
  | _ :: _, [] => false
  | a :: as, c :: cs => reAtomMatches a c && reMatchHere as cs

/-- `re.search`: the atom list matches at some position of the text. -/
def reSearchAux (atoms : List ReAtom) : List Char → Bool
  | [] => reMatchHere atoms []
  | c :: cs => reMatchHere atoms (c :: cs) || reSearchAux atoms cs

/-- `Series.str.contains(pat, case=False)` on one cell (`app.py`
line 152): a case-insensitive regex search of `pat` in `haystack`;
`none` when the pattern is outside the modelled fragment. -/
def strContainsRe (haystack pattern : String) : Option Bool :=
  (parseRePattern pattern).map (fun atoms => reSearchAux atoms haystack.data)

/-- The tag-filter loop (`app.py` lines 150-152) under the regex
semantics of `str.contains`: one successive filter per selected tag;
`none` when some selected tag is outside the modelled fragment. -/
def applyTagFilterRe (selected_tags : List String) (rows : List PromptRow) :
    Option (List PromptRow) :=
  selected_tags.foldl
    (fun acc tag => acc.bind (fun df =>
      (parseRePattern tag).map (fun atoms =>
        df.filter (fun r => reSearchAux atoms r.tags.data))))
    (some rows)

/-! ## Theorems -/

lemma list_sum_le_length_mul (l : List ℚ) (B : ℚ) (h : ∀ x ∈ l, x ≤ B) :
    l.sum ≤ (l.length : ℚ) * B := by
  induction l with
  | nil => simp
  | cons x xs ih =>
    have hx : x ≤ B := h x (List.mem_cons_self x xs)
    have hxs : xs.sum ≤ (xs.length : ℚ) * B := ih (fun y hy => h y (List.mem_cons_of_mem x hy))
    simp only [List.sum_cons, List.length_cons]
    push_cast
    nlinarith

lemma arithmeticMean_nonneg (l : List ℚ) (h : ∀ x ∈ l, 0 ≤ x) : 0 ≤ arithmeticMean l := by
  unfold arithmeticMean
  split
  · exact div_nonneg (List.sum_nonneg h) (by positivity)
  · exact le_refl 0

lemma arithmeticMean_le (l : List ℚ) (B : ℚ) (hB : 0 ≤ B) (h : ∀ x ∈ l, x ≤ B) :
    arithmeticMean l ≤ B := by
  unfold arithmeticMean
  split
  · next hlen =>
    have hpos : (0 : ℚ) < (l.length : ℚ) := by exact_mod_cast hlen
    rw [div_le_iff₀ hpos]
    calc l.sum ≤ (l.length : ℚ) * B := list_sum_le_length_mul l B h
    _ = B * (l.length : ℚ) := by ring
  · exact hB

lemma calculate_avg_eq_mean (votes : List VoteRow) (pid : Nat) :
    calculate_avg_rating votes pid
      = arithmeticMean ((votesFor votes pid).map (fun v => (v.rating : ℚ))) := by
  simp [calculate_avg_rating, arithmeticMean, List.length_map]

/-- C9: the two average-rating code paths — `calculate_avg_rating` used for
sorting and the inline per-prompt display computation — agree on every
vote store and prompt, and both equal the arithmetic mean (sum of ratings
over vote count, `0` with no votes). -/
theorem avg_rating_paths_agree (votes : List VoteRow) (pid : Nat) :
    calculate_avg_rating votes pid = inline_avg_rating votes pid
      ∧ inline_avg_rating votes pid
          = arithmeticMean ((votesFor votes pid).map (fun v => (v.rating : ℚ))) :=
  ⟨rfl, calculate_avg_eq_mean votes pid⟩

/-- C3: `calculate_avg_rating` is the arithmetic mean of all stored
ratings of the prompt (zero-valued retractions included), is `0` when the
prompt has no votes, lies in `[0, 5]` when all ratings lie in `0..5`, and
evaluates to `3` on the vote multiset `[3, 5, 0, 4]`. -/
theorem calculate_avg_rating_spec (votes : List VoteRow) (pid : Nat)
    (hrange : ∀ v ∈ votesFor votes pid, v.rating ≤ 5) :
    calculate_avg_rating votes pid
        = arithmeticMean ((votesFor votes pid).map (fun v => (v.rating : ℚ)))
      ∧ (votesFor votes pid = [] → calculate_avg_rating votes pid = 0)
      ∧ 0 ≤ calculate_avg_rating votes pid
      ∧ calculate_avg_rating votes pid ≤ 5
      ∧ calculate_avg_rating [⟨7, 1, 3⟩, ⟨7, 2, 5⟩, ⟨7, 3, 0⟩, ⟨7, 4, 4⟩] 7 = 3 := by
  refine ⟨calculate_avg_eq_mean votes pid, ?_, ?_, ?_, ?_⟩
  · intro hnil
    simp [calculate_avg_rating, hnil]
  · rw [calculate_avg_eq_mean]
    exact arithmeticMean_nonneg _ (by
      intro x hx
      obtain ⟨v, _, rfl⟩ := List.mem_map.mp hx
      positivity)
  · rw [calculate_avg_eq_mean]
    refine arithmeticMean_le _ 5 (by norm_num) ?_
    intro x hx
    obtain ⟨v, hv, rfl⟩ := List.mem_map.mp hx
    exact_mod_cast hrange v hv
  · norm_num [calculate_avg_rating, votesFor]

/-- Witness for C3 at the vote multiset `[3, 5, 0, 4]`. -/
theorem calculate_avg_rating_spec_witness :
    calculate_avg_rating [⟨7, 1, 3⟩, ⟨7, 2, 5⟩, ⟨7, 3, 0⟩, ⟨7, 4, 4⟩] 7 = 3 :=
  (calculate_avg_rating_spec [⟨7, 1, 3⟩, ⟨7, 2, 5⟩, ⟨7, 3, 0⟩, ⟨7, 4, 4⟩] 7
    (by decide)).2.2.2.2

/-- C7: a session established by the Slack OAuth callback always carries
`role = "user"`, whatever profile the provider returned — external login
can never produce an admin session. -/
theorem slack_login_role_is_user (token_data : TokenData) (s : SlackSession)
    (h : slack_callback token_data = some s) : s.role = "user" := by
  unfold slack_callback at h
  split at h
  · cases h
    rfl
  · cases h

/-- Witness for C7: a successful token exchange with an empty profile. -/
theorem slack_login_role_is_user_witness :
    (⟨"Slack User", none, "user"⟩ : SlackSession).role = "user" :=
  slack_login_role_is_user ⟨true, ⟨none, none⟩⟩ ⟨"Slack User", none, "user"⟩ rfl


lemma tagFilterRe_foldl_none (ts : List String) :
    List.foldl
      (fun acc tag => acc.bind (fun df =>
        (parseRePattern tag).map (fun atoms =>
          df.filter (fun r => reSearchAux atoms r.tags.data))))
      (none : Option (List PromptRow)) ts = none := by
  induction ts with
  | nil => rfl
  | cons t ts ih => exact ih

lemma mem_applyTagFilterRe (selected_tags : List String) (rows out : List PromptRow)
    (p : PromptRow) (h : applyTagFilterRe selected_tags rows = some out) :
    p ∈ out ↔ p ∈ rows ∧ ∀ t ∈ selected_tags, strContainsRe p.tags t = some true := by
  induction selected_tags generalizing rows with
  | nil =>
    simp only [applyTagFilterRe, List.foldl_nil] at h
    injection h with h2
    subst h2
    simp
  | cons t ts ih =>
    cases hp : parseRePattern t with
    | none =>
      have hnone : applyTagFilterRe (t :: ts) rows = none := by
        unfold applyTagFilterRe
        rw [List.foldl_cons, Option.some_bind, hp, Option.map_none']
        exact tagFilterRe_foldl_none ts
      rw [hnone] at h
      exact absurd h (by simp)
    | some atoms =>
      have hstep : applyTagFilterRe (t :: ts) rows
          = applyTagFilterRe ts (rows.filter (fun r => reSearchAux atoms r.tags.data)) := by
        unfold applyTagFilterRe
        rw [List.foldl_cons, Option.some_bind, hp, Option.map_some']
      rw [hstep] at h
      rw [ih _ h]
      have hct : strContainsRe p.tags t = some (reSearchAux atoms p.tags.data) := by
        unfold strContainsRe
        rw [hp, Option.map_some']
      constructor
      · rintro ⟨hpf, hall⟩
        obtain ⟨hpr, hpred⟩ := List.mem_filter.mp hpf
        refine ⟨hpr, ?_⟩
        intro t' ht'
        rcases List.mem_cons.mp ht' with rfl | hmem
        · rw [hct, hpred]
        · exact hall t' hmem
      · rintro ⟨hpr, hall⟩
        have hpred : reSearchAux atoms p.tags.data = true := by
          have := hall t (List.mem_cons_self t ts)
          rw [hct] at this
          injection this
        exact ⟨List.mem_filter.mpr ⟨hpr, hpred⟩,
          fun t' ht' => hall t' (List.mem_cons_of_mem t ht')⟩

lemma reMatchHere_lit (cs l : List Char) :
    reMatchHere (cs.map ReAtom.lit) l
      = (cs.map Char.toLower).isPrefixOf (l.map Char.toLower) := by
  induction cs generalizing l with
  | nil =>
    cases l with
    | nil => rfl
    | cons d ds => rfl
  | cons c cs' ih =>
    cases l with
    | nil => rfl
    | cons d ds =>
      show (reAtomMatches (ReAtom.lit c) d && reMatchHere (cs'.map ReAtom.lit) ds) = _
      rw [ih]
      rfl

lemma reSearchAux_lit (cs hay : List Char) :
    reSearchAux (cs.map ReAtom.lit) hay
      = hasSubstrAux (cs.map Char.toLower) (hay.map Char.toLower) := by
  induction hay with
  | nil =>
    cases cs with
    | nil => rfl
    | cons c cs' => rfl
  | cons d ds ih =>
    show (reMatchHere (cs.map ReAtom.lit) (d :: ds) || reSearchAux (cs.map ReAtom.lit) ds) = _
    rw [reMatchHere_lit, ih]
    rfl

lemma strContainsRe_lit (hay pat : String) (h : ∀ c ∈ pat.data, c ∉ reMetachars) :
    strContainsRe hay pat = some (strContainsCI hay pat) := by
  have hother : ∀ c ∈ pat.data, c ∉ reMetaOther := by
    intro c hc hmem
    exact h c hc (List.mem_cons_of_mem _ hmem)
  have hdot : ∀ c ∈ pat.data, c ≠ '.' := by
    intro c hc heq
    exact h c hc (heq ▸ List.mem_cons_self _ _)
  unfold strContainsRe parseRePattern
  rw [if_neg (by
    simp only [List.any_eq_true, not_exists, not_and]
    intro c hc
    simpa using hother c hc)]
  rw [Option.map_some']
  have hmap : pat.data.map (fun c => if c = '.' then ReAtom.dot else ReAtom.lit c)
      = pat.data.map ReAtom.lit := by
    refine List.map_congr_left ?_
    intro c hc
    rw [if_neg (hdot c hc)]
  rw [hmap, reSearchAux_lit]
  rfl

/-- C8 counterexample: a prompt whose tags field is exactly `"ABC"`
passes the tag filter for the selected tag `"A.C"` under the code's
regex semantics (`str.contains` with pandas default `regex=True`),
although `"A.C"` occurs in `"ABC"` neither as a case-sensitive nor as a
case-insensitive substring — so "passes only if the tag occurs as a
substring of the tags field" fails as stated. -/
theorem tag_filter_regex_counterexample :
    applyTagFilterRe ["A.C"] [⟨1, "t", "x", "c", "ABC", 4, "alice", "approved"⟩]
        = some [⟨1, "t", "x", "c", "ABC", 4, "alice", "approved"⟩]
      ∧ occursAsSubstring "A.C" "ABC" = false
      ∧ strContainsCI "ABC" "A.C" = false := by
  decide

/-- C8 (amended): tag filtering is a conjunction across all selected
tags, each tested as a case-insensitive regular-expression search
(pandas `str.contains` with `case=False` and its default `regex=True`)
of the tag against the prompt's comma-joined tag string; for tags free
of regex metacharacters this test is exactly case-insensitive substring
containment, so filtering by `"SQL"` keeps a prompt tagged only
`"PostgreSQL"`, while the metacharacter tag `"A.C"` also keeps a prompt
tagged only `"ABC"`. -/
theorem tag_filter_conjunction_re (selected_tags : List String)
    (rows out : List PromptRow) (p : PromptRow) :
    (applyTagFilterRe selected_tags rows = some out →
        (p ∈ out ↔ p ∈ rows ∧ ∀ t ∈ selected_tags, strContainsRe p.tags t = some true))
      ∧ (∀ hay pat : String, (∀ c ∈ pat.data, c ∉ reMetachars) →
            strContainsRe hay pat = some (strContainsCI hay pat))
      ∧ applyTagFilterRe ["SQL"] [⟨1, "t", "x", "c", "PostgreSQL", 4, "alice", "approved"⟩]
          = some [⟨1, "t", "x", "c", "PostgreSQL", 4, "alice", "approved"⟩]
      ∧ applyTagFilterRe ["A.C"] [⟨1, "t", "x", "c", "ABC", 4, "alice", "approved"⟩]
          = some [⟨1, "t", "x", "c", "ABC", 4, "alice", "approved"⟩] :=
  ⟨mem_applyTagFilterRe selected_tags rows out p,
   fun hay pat h => strContainsRe_lit hay pat h,
   by decide, by decide⟩

/-- Witness for C8: the `"SQL"` / `"PostgreSQL"` instance, through both
the filter-membership direction and the literal-fragment coincidence. -/
theorem tag_filter_conjunction_re_witness :
    ((⟨1, "t", "x", "c", "PostgreSQL", 4, "alice", "approved"⟩ : PromptRow)
          ∈ [⟨1, "t", "x", "c", "PostgreSQL", 4, "alice", "approved"⟩]
        ∧ ∀ t ∈ ["SQL"],
            strContainsRe
                (⟨1, "t", "x", "c", "PostgreSQL", 4, "alice", "approved"⟩ : PromptRow).tags t
              = some true)
      ∧ strContainsRe "PostgreSQL" "SQL" = some (strContainsCI "PostgreSQL" "SQL") :=
  ⟨((tag_filter_conjunction_re ["SQL"]
        [⟨1, "t", "x", "c", "PostgreSQL", 4, "alice", "approved"⟩]
        [⟨1, "t", "x", "c", "PostgreSQL", 4, "alice", "approved"⟩]
        ⟨1, "t", "x", "c", "PostgreSQL", 4, "alice", "approved"⟩).1 (by decide)).mp
      (by decide),
   (tag_filter_conjunction_re [] [] []
        ⟨1, "t", "x", "c", "PostgreSQL", 4, "alice", "approved"⟩).2.1
      "PostgreSQL" "SQL" (by decide)⟩

/-- C10: the view tab sorts the approved prompts by average rating in
non-increasing order before the search and tag filters are applied: the
sorted list is a permutation of the input, every adjacent pair is in
non-increasing average order, and the pipeline applies both filters to
that sorted list. -/
theorem view_sorted_before_filters (votes : List VoteRow) (rows : List PromptRow)
    (search_query : String) (selected_tags : List String) :
    List.Sorted (fun a b => avgKey votes a ≥ avgKey votes b) (sortByAvgDesc votes rows)
      ∧ (sortByAvgDesc votes rows).Perm rows
      ∧ viewList votes rows search_query selected_tags
          = applyTagFilter selected_tags
              (applySearch search_query (sortByAvgDesc votes rows)) := by
  refine ⟨?_, ?_, rfl⟩
  · haveI : IsTotal PromptRow (fun a b => avgKey votes a ≥ avgKey votes b) :=
      ⟨fun a b => le_total (avgKey votes b) (avgKey votes a)⟩
    haveI : IsTrans PromptRow (fun a b => avgKey votes a ≥ avgKey votes b) :=
      ⟨fun _ _ _ hab hbc => le_trans hbc hab⟩
    exact List.sorted_insertionSort _ rows
  · exact List.perm_insertionSort _ rows

lemma upsert_key_pred_stable (pid uid r : Nat) (v : VoteRow) :
    ((if v.prompt_id == pid && v.user_id == uid then { v with rating := r } else v).prompt_id
        == pid
      && (if v.prompt_id == pid && v.user_id == uid then { v with rating := r } else v).user_id
        == uid)
      = (v.prompt_id == pid && v.user_id == uid) := by
  by_cases hk : (v.prompt_id == pid && v.user_id == uid) = true
  · simp [hk]
  · simp [hk]

lemma filter_key_upsert (votes : List VoteRow) (pid uid r : Nat) :
    (upsertVote votes pid uid r).filter
        (fun v => v.prompt_id == pid && v.user_id == uid)
      = if votes.any (fun v => v.prompt_id == pid && v.user_id == uid) then
          (votes.filter (fun v => v.prompt_id == pid && v.user_id == uid)).map
            (fun v => { v with rating := r })
        else [⟨pid, uid, r⟩] := by
  unfold upsertVote
  by_cases hany : votes.any (fun v => v.prompt_id == pid && v.user_id == uid) = true
  · rw [if_pos hany, if_pos hany]
    rw [List.filter_map]
    simp only [Function.comp_def]
    rw [List.filter_congr (fun v _ => upsert_key_pred_stable pid uid r v)]
    refine List.map_congr_left ?_
    intro v hv
    have hp := (List.mem_filter.mp hv).2
    simp [hp]
  · rw [if_neg hany, if_neg hany]
    rw [List.filter_append]
    have hnil : votes.filter (fun v => v.prompt_id == pid && v.user_id == uid) = [] := by
      rw [List.filter_eq_nil_iff]
      intro v hv
      exact fun hp => hany (List.any_eq_true.mpr ⟨v, hv, hp⟩)
    rw [hnil]
    simp

lemma currentUserVote_upsert (votes : List VoteRow) (pid uid r : Nat) :
    currentUserVote (upsertVote votes pid uid r) pid uid = r := by
  unfold currentUserVote
  rw [filter_key_upsert]
  by_cases hany : votes.any (fun v => v.prompt_id == pid && v.user_id == uid) = true
  · rw [if_pos hany]
    obtain ⟨v, hv, hp⟩ := List.any_eq_true.mp hany
    have hne : votes.filter (fun v => v.prompt_id == pid && v.user_id == uid) ≠ [] := by
      intro hnil
      have := List.filter_eq_nil_iff.mp hnil v hv
      exact this hp
    cases hf : votes.filter (fun v => v.prompt_id == pid && v.user_id == uid) with
    | nil => exact absurd hf hne
    | cons w ws => rfl
  · rw [if_neg hany]

lemma voteRowCount_upsert (votes : List VoteRow) (pid uid r : Nat)
    (h : voteRowCount votes pid uid ≤ 1) :
    voteRowCount (upsertVote votes pid uid r) pid uid = 1 := by
  unfold voteRowCount
  rw [filter_key_upsert]
  by_cases hany : votes.any (fun v => v.prompt_id == pid && v.user_id == uid) = true
  · rw [if_pos hany]
    rw [List.length_map]
    obtain ⟨v, hv, hp⟩ := List.any_eq_true.mp hany
    have hmem : v ∈ votes.filter (fun v => v.prompt_id == pid && v.user_id == uid) :=
      List.mem_filter.mpr ⟨hv, hp⟩
    have hge : 1 ≤ (votes.filter (fun v => v.prompt_id == pid && v.user_id == uid)).length :=
      List.length_pos.mpr (List.ne_nil_of_mem hmem)
    exact le_antisymm h hge
  · rw [if_neg hany]
    rfl

lemma voteRowCount_castVote (votes : List VoteRow) (pid uid s : Nat)
    (h : voteRowCount votes pid uid ≤ 1) :
    voteRowCount (castVote votes pid uid s) pid uid = 1 :=
  voteRowCount_upsert votes pid uid _ h

lemma voteRowCount_castSeq (votes : List VoteRow) (pid uid : Nat) (stars : List Nat)
    (h : voteRowCount votes pid uid = 1) :
    voteRowCount (castSeq votes pid uid stars) pid uid = 1 := by
  induction stars generalizing votes with
  | nil => exact h
  | cons s ss ih =>
    show voteRowCount (castSeq (castVote votes pid uid s) pid uid ss) pid uid = 1
    exact ih _ (voteRowCount_castVote votes pid uid s (le_of_eq h))

/-- C2: a star click by a logged-in user stores the clicked value unless it
equals the user's current vote, in which case it stores `0` (retraction);
the write is an upsert on `(prompt_id, user_id)`, so after the click —
and after any further sequence of clicks by that user on that prompt —
exactly one vote row exists for the pair. -/
theorem castVote_spec (votes : List VoteRow) (pid uid s : Nat)
    (_hs : 1 ≤ s ∧ s ≤ 5) (hone : voteRowCount votes pid uid ≤ 1) :
    currentUserVote (castVote votes pid uid s) pid uid
        = (if s = currentUserVote votes pid uid then 0 else s)
      ∧ ∀ stars : List Nat,
          voteRowCount (castSeq (castVote votes pid uid s) pid uid stars) pid uid = 1 := by
  constructor
  · show currentUserVote
        (upsertVote votes pid uid
          (if s == currentUserVote votes pid uid then 0 else s)) pid uid = _
    rw [currentUserVote_upsert]
    by_cases he : s = currentUserVote votes pid uid
    · simp [he]
    · simp [he]
  · intro stars
    exact voteRowCount_castSeq _ pid uid stars (voteRowCount_castVote votes pid uid s hone)

/-- Witness for C2: a fresh user casts 4 stars twice on prompt 7 —
the first click stores 4, the second retracts, and one row remains. -/
theorem castVote_spec_witness :
    (currentUserVote (castVote [] 7 1 4) 7 1 = (if 4 = currentUserVote [] 7 1 then 0 else 4))
      ∧ voteRowCount (castSeq (castVote [] 7 1 4) 7 1 [4]) 7 1 = 1 :=
  ⟨(castVote_spec [] 7 1 4 (by decide) (by decide)).1,
   (castVote_spec [] 7 1 4 (by decide) (by decide)).2 [4]⟩

lemma string_data_nil_iff (s : String) : s.data = [] ↔ s = "" := by
  constructor
  · intro h
    obtain ⟨d⟩ := s
    simp only at h
    subst h
    rfl
  · intro h
    subst h
    rfl

lemma submitTagSet_nil_iff (selected_tags : List String) (custom_tags_input : String) :
    submitTagSet selected_tags custom_tags_input = []
      ↔ (selected_tags ++ parseCustomTags custom_tags_input).dedup = [] := by
  unfold submitTagSet pySortStrings
  constructor
  · intro h
    have hperm := List.perm_insertionSort
      (fun a b => charListLe a.data b.data = true)
      (selected_tags ++ parseCustomTags custom_tags_input).dedup
    rw [h] at hperm
    exact (hperm.symm.eq_nil)
  · intro h
    rw [h]
    rfl

/-- C4: the submission handler fails (inserting nothing) exactly when
title, text, or category is empty or the deduplicated union of selected
and trimmed non-empty custom tags is empty; on success the single
inserted row has `status = "pending"` and carries the submitter's id and
username. -/
theorem submit_spec (title prompt_text category : String) (selected_tags : List String)
    (custom_tags_input : String) (user_id : Nat) (username : String) :
    (submit title prompt_text category selected_tags custom_tags_input user_id username
        = Except.error ValidationError.missingFields
      ↔ title = "" ∨ prompt_text = "" ∨ category = ""
          ∨ (selected_tags ++ parseCustomTags custom_tags_input).dedup = [])
      ∧ ∀ np,
          submit title prompt_text category selected_tags custom_tags_input user_id username
              = Except.ok np →
            np.status = "pending" ∧ np.submitted_by_id = user_id ∧ np.username = username := by
  constructor
  · have hiff :
        submit title prompt_text category selected_tags custom_tags_input user_id username
            = Except.error ValidationError.missingFields
          ↔ ¬ ((!title.data.isEmpty && !prompt_text.data.isEmpty && !category.data.isEmpty
                && !(submitTagSet selected_tags custom_tags_input).isEmpty) = true) := by
      simp only [submit]
      split
      · next hc => simp [hc]
      · next hc => simp [hc]
    rw [hiff]
    simp only [Bool.and_eq_true, Bool.not_eq_true', List.isEmpty_eq_false,
      List.isEmpty_iff, not_and_or, not_not, string_data_nil_iff, submitTagSet_nil_iff]
    tauto
  · intro np h
    simp only [submit] at h
    split at h
    · injection h with h2
      subst h2
      exact ⟨rfl, rfl, rfl⟩
    · exact absurd h (by simp)

/-- Witness for C4: a valid one-tag submission inserts a pending row for
user 4 / "alice". -/
theorem submit_spec_witness :
    (⟨"T", "body", "Residents", "USMLE Step3", 4, "alice", "pending"⟩ : NewPrompt).status
        = "pending"
      ∧ (⟨"T", "body", "Residents", "USMLE Step3", 4, "alice", "pending"⟩ : NewPrompt).submitted_by_id
        = 4
      ∧ (⟨"T", "body", "Residents", "USMLE Step3", 4, "alice", "pending"⟩ : NewPrompt).username
        = "alice" :=
  (submit_spec "T" "body" "Residents" ["USMLE Step3"] "" 4 "alice").2
    ⟨"T", "body", "Residents", "USMLE Step3", 4, "alice", "pending"⟩ rfl

lemma admin_login_fail_eq (hash_password : String → String) (users : List UserRow)
    (username password : String)
    (h : (admin_login hash_password users username password).isOk = false) :
    admin_login hash_password users username password
      = Except.error AuthError.invalidAdmin := by
  simp only [admin_login] at h ⊢
  cases hf : users.filter (fun u =>
      u.username == username && u.password_hash == hash_password password
        && u.role == "admin") with
  | nil => rfl
  | cons u us =>
    rw [hf] at h
    simp [Except.isOk, Except.toBool] at h

/-- C6: admin login yields an admin session exactly when some stored user
row matches the supplied username, the hash of the supplied password, and
`role = "admin"`; every failing input produces the same single generic
`AuthError`, so no failing output distinguishes which condition failed. -/
theorem admin_login_spec (hash_password : String → String) (users : List UserRow)
    (username password : String) :
    ((∃ sess, admin_login hash_password users username password = Except.ok sess
          ∧ sess.role = "admin")
        ↔ ∃ u ∈ users, u.username = username
            ∧ u.password_hash = hash_password password ∧ u.role = "admin")
      ∧ (∀ e, admin_login hash_password users username password = Except.error e →
            e = AuthError.invalidAdmin)
      ∧ (∀ (users' : List UserRow) (username' password' : String),
            (admin_login hash_password users username password).isOk = false →
            (admin_login hash_password users' username' password').isOk = false →
            admin_login hash_password users username password
              = admin_login hash_password users' username' password') := by
  refine ⟨?_, ?_, ?_⟩
  · constructor
    · rintro ⟨sess, hok, _⟩
      simp only [admin_login] at hok
      cases hf : users.filter (fun u =>
          u.username == username && u.password_hash == hash_password password
            && u.role == "admin") with
      | nil =>
        rw [hf] at hok
        exact absurd hok (by simp)
      | cons u us =>
        have hu := List.mem_filter.mp (hf ▸ List.mem_cons_self u us)
        obtain ⟨hmem, hpred⟩ := hu
        simp only [Bool.and_eq_true, beq_iff_eq] at hpred
        exact ⟨u, hmem, hpred.1.1, hpred.1.2, hpred.2⟩
    · rintro ⟨u, hmem, h1, h2, h3⟩
      have hu : u ∈ users.filter (fun u =>
          u.username == username && u.password_hash == hash_password password
            && u.role == "admin") :=
        List.mem_filter.mpr ⟨hmem, by simp [h1, h2, h3]⟩
      simp only [admin_login]
      cases hf : users.filter (fun u =>
          u.username == username && u.password_hash == hash_password password
            && u.role == "admin") with
      | nil => exact absurd (hf ▸ hu) (by simp)
      | cons v vs =>
        have hv := List.mem_filter.mp (hf ▸ List.mem_cons_self v vs)
        simp only [Bool.and_eq_true, beq_iff_eq] at hv
        exact ⟨⟨v.username, v.id, v.role⟩, rfl, hv.2.2⟩
  · intro e _
    cases e
    rfl
  · intro users' username' password' h1 h2
    rw [admin_login_fail_eq hash_password users username password h1,
      admin_login_fail_eq hash_password users' username' password' h2]

/-- Witness for C6: a one-admin user table, a successful login and an
indistinguishable pair of failures (wrong password vs unknown user). -/
theorem admin_login_spec_witness :
    (∃ sess, admin_login (fun _ => "H") [⟨1, "root", "H", "admin"⟩] "root" "pw"
          = Except.ok sess ∧ sess.role = "admin")
      ∧ admin_login (fun _ => "X") [⟨1, "root", "H", "admin"⟩] "root" "pw"
          = admin_login (fun _ => "X") [] "ghost" "pw" :=
  ⟨(admin_login_spec (fun _ => "H") [⟨1, "root", "H", "admin"⟩] "root" "pw").1.mpr
      ⟨⟨1, "root", "H", "admin"⟩, List.mem_singleton.mpr rfl, rfl, rfl, rfl⟩,
   (admin_login_spec (fun _ => "X") [⟨1, "root", "H", "admin"⟩] "root" "pw").2.2
      [] "ghost" "pw" rfl rfl⟩

lemma mem_updateStatus_ne (store : List PromptRow) (pid : Nat) (newst : String)
    (q : PromptRow) (hq : q ∈ updateStatus store pid newst) (hqs : q.status ≠ newst) :
    q.id ≠ pid := by
  unfold updateStatus at hq
  obtain ⟨x, hx, hfx⟩ := List.mem_map.mp hq
  by_cases hid : (x.id == pid) = true
  · rw [if_pos hid] at hfx
    exact absurd (by rw [← hfx]) hqs
  · rw [if_neg hid] at hfx
    subst hfx
    exact fun hcontra => hid (by simp [hcontra])

/-- C5: approving a pending prompt puts it in the approved listing and
removes it from the pending queue; rejecting removes it from the pending
queue without it appearing in the approved listing. -/
theorem approve_reject_listing (store : List PromptRow) (p : PromptRow)
    (hp : p ∈ listPending store) :
    ({ p with status := "approved" } ∈ listApproved (updateStatus store p.id "approved"))
      ∧ (∀ q ∈ listPending (updateStatus store p.id "approved"), q.id ≠ p.id)
      ∧ (∀ q ∈ listPending (updateStatus store p.id "rejected"), q.id ≠ p.id)
      ∧ (∀ q ∈ listApproved (updateStatus store p.id "rejected"), q.id ≠ p.id) := by
  obtain ⟨hmem, _⟩ := List.mem_filter.mp hp
  refine ⟨?_, ?_, ?_, ?_⟩
  · refine List.mem_filter.mpr ⟨?_, by simp⟩
    exact List.mem_map.mpr ⟨p, hmem, by simp [updateStatus]⟩
  · intro q hq
    obtain ⟨hq', hqs⟩ := List.mem_filter.mp hq
    refine mem_updateStatus_ne store p.id "approved" q hq' ?_
    rw [show q.status = "pending" from by simpa using hqs]
    decide
  · intro q hq
    obtain ⟨hq', hqs⟩ := List.mem_filter.mp hq
    refine mem_updateStatus_ne store p.id "rejected" q hq' ?_
    rw [show q.status = "pending" from by simpa using hqs]
    decide
  · intro q hq
    obtain ⟨hq', hqs⟩ := List.mem_filter.mp hq
    refine mem_updateStatus_ne store p.id "rejected" q hq' ?_
    rw [show q.status = "approved" from by simpa using hqs]
    decide

/-- Witness for C5: a one-prompt pending store. -/
theorem approve_reject_listing_witness :
    ((⟨1, "t", "x", "c", "tag", 4, "alice", "approved"⟩ : PromptRow)
        ∈ listApproved
            (updateStatus [⟨1, "t", "x", "c", "tag", 4, "alice", "pending"⟩] 1 "approved"))
      ∧ (∀ q ∈ listPending
            (updateStatus [⟨1, "t", "x", "c", "tag", 4, "alice", "pending"⟩] 1 "approved"),
          q.id ≠ 1)
      ∧ (∀ q ∈ listPending
            (updateStatus [⟨1, "t", "x", "c", "tag", 4, "alice", "pending"⟩] 1 "rejected"),
          q.id ≠ 1)
      ∧ (∀ q ∈ listApproved
            (updateStatus [⟨1, "t", "x", "c", "tag", 4, "alice", "pending"⟩] 1 "rejected"),
          q.id ≠ 1) :=
  approve_reject_listing [⟨1, "t", "x", "c", "tag", 4, "alice", "pending"⟩]
    ⟨1, "t", "x", "c", "tag", 4, "alice", "pending"⟩ (by decide)

lemma submit_ok_pending (title prompt_text category : String) (selected_tags : List String)
    (custom_tags_input : String) (user_id : Nat) (username : String) (np : NewPrompt)
    (h : submit title prompt_text category selected_tags custom_tags_input user_id username
          = Except.ok np) :
    np.status = "pending" := by
  simp only [submit] at h
  split at h
  · injection h with h2
    subst h2
    rfl
  · exact absurd h (by simp)

lemma le_foldr_max (l : List Nat) (x : Nat) (hx : x ∈ l) : x ≤ l.foldr max 0 := by
  induction l with
  | nil => cases hx
  | cons a as ih =>
    rcases List.mem_cons.mp hx with rfl | hmem
    · exact le_max_left _ _
    · exact le_trans (ih hmem) (le_max_right _ _)

lemma freshId_not_mem (store : List PromptRow) :
    freshId store ∉ store.map (fun p => p.id) := by
  intro hmem
  have := le_foldr_max (store.map (fun p => p.id)) _ hmem
  unfold freshId at this
  omega

lemma updateStatus_map_id (store : List PromptRow) (pid : Nat) (newst : String) :
    (updateStatus store pid newst).map (fun p => p.id) = store.map (fun p => p.id) := by
  unfold updateStatus
  rw [List.map_map]
  refine List.map_congr_left ?_
  intro p _
  show (if (p.id == pid) = true then { p with status := newst } else p).id = p.id
  by_cases hid : (p.id == pid) = true
  · rw [if_pos hid]
  · rw [if_neg hid]

lemma updateStatus_row_id (pid : Nat) (newst : String) (p : PromptRow) :
    (if (p.id == pid) = true then { p with status := newst } else p).id = p.id := by
  by_cases hid : (p.id == pid) = true
  · rw [if_pos hid]
  · rw [if_neg hid]

lemma statusOf_append_some (s t : List PromptRow) (pid : Nat) (st : String)
    (h : statusOf s pid = some st) : statusOf (s ++ t) pid = some st := by
  induction s with
  | nil => exact absurd h (by simp [statusOf])
  | cons p ps ih =>
    rw [List.cons_append]
    unfold statusOf at h ⊢
    by_cases hp : (p.id == pid) = true
    · rw [if_pos hp] at h ⊢
      exact h
    · rw [if_neg hp] at h ⊢
      exact ih h

lemma statusOf_append_none (s : List PromptRow) (row : PromptRow) (pid : Nat)
    (h : statusOf s pid = none) :
    statusOf (s ++ [row]) pid = if (row.id == pid) = true then some row.status else none := by
  induction s with
  | nil =>
    show statusOf [row] pid = _
    unfold statusOf
    rfl
  | cons p ps ih =>
    rw [List.cons_append]
    unfold statusOf at h ⊢
    by_cases hp : (p.id == pid) = true
    · rw [if_pos hp] at h
      exact absurd h (by simp)
    · rw [if_neg hp] at h ⊢
      exact ih h

lemma statusOf_updateStatus (s : List PromptRow) (pid target : Nat) (newst : String) :
    statusOf (updateStatus s pid newst) target
      = (statusOf s target).map (fun old => if target == pid then newst else old) := by
  induction s with
  | nil => rfl
  | cons p ps ih =>
    show statusOf
        ((if (p.id == pid) = true then { p with status := newst } else p)
          :: updateStatus ps pid newst) target = _
    unfold statusOf
    rw [updateStatus_row_id pid newst p]
    by_cases hpt : (p.id == target) = true
    · rw [if_pos hpt, if_pos hpt]
      have h1 : p.id = target := by simpa using hpt
      by_cases hpp : (p.id == pid) = true
      · have h2 : p.id = pid := by simpa using hpp
        have htp : (target == pid) = true := by simp [← h1, ← h2]
        rw [if_pos hpp]
        simp [htp]
      · have h2 : p.id ≠ pid := by simpa using hpp
        have htp : (target == pid) = false := by
          simp only [beq_eq_false_iff_ne, ne_eq, ← h1]
          exact h2
        rw [if_neg hpp]
        simp [htp]
    · rw [if_neg hpt, if_neg hpt]
      exact ih

lemma statusOf_of_mem_nodup (s : List PromptRow) (q : PromptRow) (hnd : IdsNodup s)
    (hq : q ∈ s) : statusOf s q.id = some q.status := by
  induction s with
  | nil => cases hq
  | cons p ps ih =>
    unfold statusOf
    rcases List.mem_cons.mp hq with rfl | hmem
    · rw [if_pos (by simp)]
    · have hnd' : IdsNodup ps := by
        unfold IdsNodup at hnd ⊢
        exact (List.nodup_cons.mp hnd).2
      have hpid : p.id ∉ ps.map (fun r => r.id) := (List.nodup_cons.mp hnd).1
      have hne : (p.id == q.id) = false := by
        simp only [beq_eq_false_iff_ne, ne_eq]
        intro heq
        exact hpid (by rw [heq]; exact List.mem_map.mpr ⟨q, hmem, rfl⟩)
      rw [if_neg (by simp [hne])]
      exact ih hnd' hmem

lemma pending_queue_statusOf (s : List PromptRow) (pid : Nat) (hnd : IdsNodup s)
    (h : pid ∈ (listPending s).map (fun p => p.id)) : statusOf s pid = some "pending" := by
  obtain ⟨q, hq, rfl⟩ := List.mem_map.mp h
  obtain ⟨hmem, hqp⟩ := List.mem_filter.mp hq
  rw [statusOf_of_mem_nodup s q hnd hmem]
  have hq' : q.status = "pending" := by simpa using hqp
  rw [hq']

lemma idsNodup_insertPrompt (s : List PromptRow) (np : NewPrompt) (hnd : IdsNodup s) :
    IdsNodup (insertPrompt s np) := by
  unfold IdsNodup insertPrompt
  rw [List.map_append, List.nodup_append]
  refine ⟨hnd, List.nodup_singleton _, ?_⟩
  intro a ha hb
  simp only [List.map_cons, List.map_nil, List.mem_singleton] at hb
  subst hb
  exact freshId_not_mem s ha

/-- C1: the moderation state machine admits exactly the transitions
`pending → approved` and `pending → rejected`: each operation keeps every
status in `{pending, approved, rejected}` and keeps ids distinct, a newly
inserted prompt always has status `pending`, and whenever an operation
changes a prompt's stored status, the old status was `pending` (the admin
acted on the pending queue) and the new one is `approved` or `rejected` —
so the status of an already approved or rejected prompt never changes. -/
theorem moderation_state_machine (s s' : List PromptRow) (h : Step s s') :
    (StatusInv s → StatusInv s')
      ∧ (IdsNodup s → IdsNodup s')
      ∧ (∀ pid st', statusOf s pid = none → statusOf s' pid = some st' → st' = "pending")
      ∧ (IdsNodup s → ∀ pid st st', statusOf s pid = some st → statusOf s' pid = some st' →
            st ≠ st' → st = "pending" ∧ (st' = "approved" ∨ st' = "rejected")) := by
  cases h with
  | submission title prompt_text category selected_tags custom_tags_input
      user_id username np hok =>
    have hpend := submit_ok_pending title prompt_text category selected_tags
      custom_tags_input user_id username np hok
    refine ⟨?_, ?_, ?_, ?_⟩
    · intro hinv p hp
      unfold insertPrompt at hp
      rcases List.mem_append.mp hp with hmem | hmem
      · exact hinv p hmem
      · rcases List.mem_singleton.mp hmem with rfl
        left
        exact hpend
    · intro hnd
      exact idsNodup_insertPrompt s np hnd
    · intro pid st' hnone hsome
      unfold insertPrompt at hsome
      rw [statusOf_append_none s _ pid hnone] at hsome
      split at hsome
      · injection hsome with h2
        rw [← h2]
        exact hpend
      · exact absurd hsome (by simp)
    · intro _ pid st st' hsome hsome' hne
      unfold insertPrompt at hsome'
      rw [statusOf_append_some s _ pid st hsome] at hsome'
      injection hsome' with h2
      exact absurd h2 hne
  | approve role pid hrole hpending =>
    refine ⟨?_, ?_, ?_, ?_⟩
    · intro hinv p hp
      unfold updateStatus at hp
      obtain ⟨x, hx, hfx⟩ := List.mem_map.mp hp
      by_cases hid : (x.id == pid) = true
      · rw [if_pos hid] at hfx
        subst hfx
        right
        left
        rfl
      · rw [if_neg hid] at hfx
        subst hfx
        exact hinv x hx
    · intro hnd
      unfold IdsNodup
      rw [updateStatus_map_id]
      exact hnd
    · intro pid' st' hnone hsome
      rw [statusOf_updateStatus, hnone] at hsome
      exact absurd hsome (by simp)
    · intro hnd pid' st st' hsome hsome' hne
      rw [statusOf_updateStatus, hsome] at hsome'
      rw [Option.map_some'] at hsome'
      injection hsome' with h2
      by_cases htp : (pid' == pid) = true
      · rw [if_pos htp] at h2
        have hpid : pid' = pid := by simpa using htp
        subst hpid
        have hpold := pending_queue_statusOf s pid' hnd hpending
        rw [hsome] at hpold
        injection hpold with h3
        exact ⟨h3, Or.inl h2.symm⟩
      · rw [if_neg htp] at h2
        exact absurd h2 hne
  | reject role pid hrole hpending =>
    refine ⟨?_, ?_, ?_, ?_⟩
    · intro hinv p hp
      unfold updateStatus at hp
      obtain ⟨x, hx, hfx⟩ := List.mem_map.mp hp
      by_cases hid : (x.id == pid) = true
      · rw [if_pos hid] at hfx
        subst hfx
        right
        right
        rfl
      · rw [if_neg hid] at hfx
        subst hfx
        exact hinv x hx
    · intro hnd
      unfold IdsNodup
      rw [updateStatus_map_id]
      exact hnd
    · intro pid' st' hnone hsome
      rw [statusOf_updateStatus, hnone] at hsome
      exact absurd hsome (by simp)
    · intro hnd pid' st st' hsome hsome' hne
      rw [statusOf_updateStatus, hsome] at hsome'
      rw [Option.map_some'] at hsome'
      injection hsome' with h2
      by_cases htp : (pid' == pid) = true
      · rw [if_pos htp] at h2
        have hpid : pid' = pid := by simpa using htp
        subst hpid
        have hpold := pending_queue_statusOf s pid' hnd hpending
        rw [hsome] at hpold
        injection hpold with h3
        exact ⟨h3, Or.inr h2.symm⟩
      · rw [if_neg htp] at h2
        exact absurd h2 hne

/-- Witness for C1: approving the only pending prompt of a one-row store. -/
theorem moderation_state_machine_witness :
    StatusInv (updateStatus [⟨1, "t", "x", "c", "tag", 4, "alice", "pending"⟩] 1 "approved") :=
  (moderation_state_machine [⟨1, "t", "x", "c", "tag", 4, "alice", "pending"⟩]
      (updateStatus [⟨1, "t", "x", "c", "tag", 4, "alice", "pending"⟩] 1 "approved")
      (Step.approve [⟨1, "t", "x", "c", "tag", 4, "alice", "pending"⟩] "admin" 1 rfl
        (by decide))).1
    (by simp [StatusInv])
